import Mathlib

/-!
Shallow embedding of the OneDrive filesystem provider
(`src/web/onedrive-filesystem-provider.ts`): the delta-sync watch loop and
its `DeltaResultInteractor`, the client's pagination and delete logic, and
the provider's watch reference counting.  Numbers that are JavaScript
timestamps (`Date.getTime()` millisecond values) are modelled as `Int`;
fields that are optional or `undefined`-able in JavaScript are modelled as
`Option`; JavaScript truthiness of an optional string (`undefined` and `""`
are falsy) is modelled by `strTruthy`.
-/

namespace OneDrive

/-- JavaScript truthiness of a possibly-absent string: `undefined` and the
empty string are falsy, every other string is truthy. -/
def strTruthy : Option String → Bool
  | some s => !(s == "")
  | none => false

/-- The constant `driveRootPrefix = '/drive/root:'` from the source. -/
def driveRootPrefixStr : String := "/drive/root:"

/-- `Children.ParentReference`, restricted to the fields the embedded code
reads: the parent `id` and the optional materialized `path`. -/
structure ParentReference where
  id : String
  path : Option String
deriving DecidableEq

/-- `Children.DriveItem`, restricted to the fields the embedded code reads.
`createdDateTime` is the epoch-millisecond value of the item's creation
time (`new Date(item.createdDateTime).getTime()` in the source);
`root` and `deleted` model the presence of the optional `root` and
`deleted` facet objects (an absent facet is falsy, a present one truthy). -/
structure DriveItem where
  id : String
  name : String
  createdDateTime : Int
  parentReference : Option ParentReference
  root : Bool
  deleted : Bool
deriving DecidableEq

/-- One page of the delta feed: `DeltaResponse` from the source, with the
`@odata.deltaLink` and `@odata.nextLink` fields (absent on some pages at
runtime, hence `Option`) and the `value` item array. -/
structure DeltaResponse where
  deltaLink : Option String
  nextLink : Option String
  value : List DriveItem
deriving DecidableEq

/-- JavaScript `Map.set` on an association list: replace the value in
place when the key is present (keeping insertion order), append otherwise. -/
def msSet (m : List (String × DriveItem)) (k : String) (v : DriveItem) :
    List (String × DriveItem) :=
  if m.any (fun p => p.1 == k) then
    m.map (fun p => if p.1 == k then (k, v) else p)
  else
    m ++ [(k, v)]

/-- JavaScript `Map.get` on an association list. -/
def msGet (m : List (String × DriveItem)) (k : String) : Option DriveItem :=
  (m.find? (fun p => p.1 == k)).map (fun p => p.2)

/-- The `results` map of a `DeltaResultInteractor`: every item of the
response inserted keyed by id, in page order. -/
def buildResults (items : List DriveItem) : List (String × DriveItem) :=
  items.foldl (fun m it => msSet m it.id it) []

/-- `DeltaResultInteractor` from the source: the id-keyed `results` map,
the `lastUpdated` timestamp taken from the response `Date` header (or the
current time when the header is absent), and the `next` delta link. -/
structure DeltaResultInteractor where
  results : List (String × DriveItem)
  lastUpdated : Int
  next : Option String
deriving DecidableEq

/-- The `DeltaResultInteractor` constructor: `dateHeader` is the parsed
`Date` response header, `now` the ambient `Date.now()` used when the
header is absent. -/
def mkInteractor (res : DeltaResponse) (dateHeader : Option Int) (now : Int) :
    DeltaResultInteractor :=
  { results := buildResults res.value
    lastUpdated := dateHeader.getD now
    next := res.deltaLink }

/-- `DeltaResultInteractor.isNew`: the item's creation time is strictly
later than the interactor's `lastUpdated` timestamp. -/
def DeltaResultInteractor.isNew (i : DeltaResultInteractor) (item : DriveItem) : Bool :=
  i.lastUpdated < item.createdDateTime

/-- `DeltaResultInteractor.getPathForItem`, with explicit recursion fuel
(the source recursion is unbounded; `none` means the fuel ran out).
Branches in source order: a root item resolves to the empty path; an item
without a parent reference resolves to its name; a parent path equal to
`driveRootPrefix` resolves to the name; a truthy parent path resolves to
that path with the `/drive/root:/` prefix sliced off, plus the name; an
untruthy parent path falls back to looking the parent id up in `results`
and recursing, or to the bare name when the id is not found. -/
def getPathForItemF (results : List (String × DriveItem)) :
    Nat → DriveItem → Option String
  | 0, _ => none
  | n + 1, item =>
    if item.root then some ""
    else
      match item.parentReference with
      | none => some item.name
      | some pr =>
        if pr.path = some driveRootPrefixStr then some item.name
        else if strTruthy pr.path then
          some ((pr.path.getD "").drop (driveRootPrefixStr.length + 1) ++ "/" ++ item.name)
        else
          match msGet results pr.id with
          | some parentItem =>
            (getPathForItemF results n parentItem).map (fun s => s ++ "/" ++ item.name)
          | none => some item.name

/-- `getPathForItem` as used by the engine, with fuel one larger than the
snapshot, enough for any acyclic snapshot. -/
def DeltaResultInteractor.getPathForItem (i : DeltaResultInteractor)
    (item : DriveItem) : Option String :=
  getPathForItemF i.results (i.results.length + 1) item

/-- `vscode.FileChangeType`. -/
inductive FileChangeType where
  | Created
  | Changed
  | Deleted
deriving DecidableEq

/-- One emitted change: a change type and the reconstructed path (`none`
when path reconstruction ran out of fuel on a cyclic snapshot). -/
structure Change where
  type : FileChangeType
  path : Option String
deriving DecidableEq

/-- The condition `new Date(value.createdDateTime)` from the watch loop:
in JavaScript a `Date` object is always truthy (even an Invalid Date), so
this condition holds for every item. -/
def jsDateTruthy (_ : Int) : Bool := true

/-- The classification of one snapshot item inside the watch loop, in
source order: `deleted` emits Deleted, then the always-truthy
`new Date(value.createdDateTime)` emits Created, else Changed; the path is
resolved against `next`, the current round's interactor. -/
def roundChangeFor (next : DeltaResultInteractor) (value : DriveItem) : Change :=
  let path := next.getPathForItem value
  if value.deleted then { type := FileChangeType.Deleted, path := path }
  else if jsDateTruthy value.createdDateTime then
    { type := FileChangeType.Created, path := path }
  else { type := FileChangeType.Changed, path := path }

/-- The items of an interactor in iteration order (`[...next]`, which
iterates the `results` map's values in insertion order). -/
def interactorItems (i : DeltaResultInteractor) : List DriveItem :=
  i.results.map (fun p => p.2)

/-- The batch of changes one poll round emits: every item of the new
snapshot, classified, in map iteration order. -/
def roundChanges (next : DeltaResultInteractor) : List Change :=
  (interactorItems next).map (roundChangeFor next)

/-- The environment of one poll round: the cancellation flag as observed
at the three checkpoints of the loop body (the `while` condition, after
the interruptible sleep, after the delta fetch), the fully materialized
delta response of this round's `loadDelta`, its `Date` header, and the
ambient clock value. -/
structure RoundEnv where
  cLoop : Bool
  cSleep : Bool
  cFetch : Bool
  resp : DeltaResponse
  date : Option Int
  now : Int

/-- Whether cancellation is observed at any checkpoint of the round. -/
def roundCancelled (e : RoundEnv) : Bool := e.cLoop || e.cSleep || e.cFetch

/-- The polling loop of `OneDriveClient.watch`, after the baseline fetch:
`prev` is the interactor of the previous round (initially the baseline),
and each round either observes cancellation at a checkpoint and terminates
without emitting, or builds the new interactor, emits its batch, and
continues with it as the new `prev`. -/
def watchLoop (prev : DeltaResultInteractor) : List RoundEnv → List (List Change)
  | [] => []
  | e :: rest =>
    if e.cLoop then []
    else if e.cSleep then []
    else
      let next := mkInteractor e.resp e.date e.now
      if e.cFetch then []
      else roundChanges next :: watchLoop next rest

/-- The page-following loop inside `loadDelta` in `OneDriveClient.watch`:
while the accumulated response has a truthy `@odata.nextLink`, fetch that
link from the server, concatenate its `value` onto the accumulated values,
and overwrite the delta and next links with the new page's.  `server` maps
a URL to its response; the recursion carries fuel (`none` = the chain did
not end within the fuel). -/
def loadDeltaLoop (server : String → DeltaResponse) :
    Nat → DeltaResponse → Option DeltaResponse
  | 0, r => if strTruthy r.nextLink then none else some r
  | n + 1, r =>
    if strTruthy r.nextLink then
      let nxt := server (r.nextLink.getD "")
      loadDeltaLoop server n
        { value := r.value ++ nxt.value
          deltaLink := nxt.deltaLink
          nextLink := nxt.nextLink }
    else some r

/-- `loadDelta`: fetch the initial route, then follow all pages. -/
def loadDelta (server : String → DeltaResponse) (fuel : Nat)
    (routeOrUrl : String) : Option DeltaResponse :=
  loadDeltaLoop server fuel (server routeOrUrl)

/-- `server` serves, starting from a current next-link, exactly the given
chain of pages: the current link is truthy and resolves to the head page,
whose own next-link continues the chain; the last page's next-link is
falsy. -/
def chainOk (server : String → DeltaResponse) :
    Option String → List DeltaResponse → Prop
  | nl, [] => strTruthy nl = false
  | nl, q :: rest =>
    strTruthy nl = true ∧ server (nl.getD "") = q ∧ chainOk server q.nextLink rest

/-- A children-listing response (`Children.Response`): the `value` array
and the `@odata.nextLink` continuation the Graph API sends on paged
listings (the source's `Children.Response` type omits it, and the code
never reads it). -/
structure ChildrenResponse where
  value : List DriveItem
  nextLink : Option String
deriving DecidableEq

/-- `OneDriveClient.getNestedChildren`: a single `fetchJson` of the
children route; no page following. -/
def getNestedChildren (server : String → ChildrenResponse)
    (driveId itemId : String) : ChildrenResponse :=
  server ("drives/" ++ driveId ++ "/items/" ++ itemId ++ "/children")

/-- The outcome of the one remote `DELETE` call: `ok` for a 2xx response,
`error status` for a non-2xx response (the thrown `ResponseError`'s
status code). -/
def RemoteOutcome := Except Nat Unit

/-- `OneDriveClient.delete`: await the remote delete; swallow a 404
`ResponseError`, rethrow everything else. -/
def clientDelete (remote : Except Nat Unit) : Except Nat Unit :=
  match remote with
  | Except.ok _ => Except.ok ()
  | Except.error status =>
    if status = 404 then Except.ok () else Except.error status

/-- `OneDriveFileSystemProvider.delete`: parse the URI, demand the client,
then call `client.delete(driveId, path)` WITHOUT `await` (and without
returning the promise), so the provider's own promise resolves with `ok`
whatever the client call's outcome; the client call's rejection, if any,
is dropped. -/
def providerDelete (remote : Except Nat Unit) : Except Nat Unit :=
  let _floating := clientDelete remote
  Except.ok ()

/-- An operation on `OneDriveFileSystemProvider`'s watcher state: a
`watch` call (subscription), or a call to the `dispose` of the handle
returned by the `i`-th subscription (handles are numbered in creation
order). -/
inductive WatchOp where
  | subscribe : WatchOp
  | dispose : Nat → WatchOp
deriving DecidableEq

/-- The provider's watcher state, instrumented for the proof: `watcher` is
the `{ count, cts }` field (the count as the JavaScript number it is, and
the cancellation token source identified by the generation number that
created it); `nextGen` is the next fresh generation; `handles` holds each
returned handle's captured `disposed` flag in creation order; `started`
and `cancelled` record, in order, the generations whose polling loop was
started resp. whose token source was cancelled. -/
structure FsWatchState where
  watcher : Option (Int × Nat)
  nextGen : Nat
  handles : List Bool
  started : List Nat
  cancelled : List Nat
deriving DecidableEq

/-- A fresh provider: no watcher, no handles, no loop ever started. -/
def initWatchState : FsWatchState :=
  { watcher := none, nextGen := 0, handles := [], started := [], cancelled := [] }

/-- `OneDriveFileSystemProvider.watch`: if a watcher exists, increment its
count; otherwise create a fresh token source, start the polling loop, and
install a watcher with count 1.  Either way a new handle with a fresh
`disposed = false` flag is returned. -/
def applySubscribe (s : FsWatchState) : FsWatchState :=
  match s.watcher with
  | some (c, g) =>
    { s with watcher := some (c + 1, g), handles := s.handles ++ [false] }
  | none =>
    { s with
      watcher := some (1, s.nextGen)
      nextGen := s.nextGen + 1
      handles := s.handles ++ [false]
      started := s.started ++ [s.nextGen] }

/-- The `dispose` closure of handle `i`:
`if (!disposed && this.watcher && --this.watcher.count === 0) { cancel }`,
then `disposed = true`.  A handle index with no handle is a no-op; an
already-disposed handle only re-sets its flag; otherwise the flag is set
and, when a watcher is present, its count is decremented, cancelling the
token source and clearing the watcher exactly when the count reaches
zero. -/
def applyDispose (s : FsWatchState) (i : Nat) : FsWatchState :=
  match s.handles[i]? with
  | none => s
  | some true => s
  | some false =>
    match s.watcher with
    | none => { s with handles := s.handles.set i true }
    | some (c, g) =>
      if c - 1 = 0 then
        { s with
          handles := s.handles.set i true
          watcher := none
          cancelled := s.cancelled ++ [g] }
      else
        { s with handles := s.handles.set i true, watcher := some (c - 1, g) }

/-- One step of the watcher state machine. -/
def applyOp (s : FsWatchState) : WatchOp → FsWatchState
  | WatchOp.subscribe => applySubscribe s
  | WatchOp.dispose i => applyDispose s i

/-- Run a finite interleaving of subscriptions and disposals from the
fresh provider state. -/
def runOps (ops : List WatchOp) : FsWatchState :=
  ops.foldl applyOp initWatchState

/-- The generations whose polling loop is active: started but not yet
cancelled. -/
def activeGens (s : FsWatchState) : List Nat :=
  s.started.filter (fun g => decide (g ∉ s.cancelled))

/-- The recursion step of `getPathForItem` on a snapshot: `stepRel results
p c` holds when resolving `c` recurses into `p`, i.e. `c` is not a root,
has a parent reference with an untruthy path, and looking the parent id up
in `results` yields `p`. -/
def stepRel (results : List (String × DriveItem)) (p c : DriveItem) : Prop :=
  c.root = false ∧
    ∃ pr, c.parentReference = some pr ∧ strTruthy pr.path = false ∧
      msGet results pr.id = some p

/-! Concrete fixtures used by the counterexamples and witnesses. -/

/-- A drive root item. -/
def itemA : DriveItem :=
  { id := "a", name := "rootitem", createdDateTime := 0, parentReference := none,
    root := true, deleted := false }

/-- An item whose parent reference carries the materialized root path,
i.e. points at the drive root `itemA`. -/
def itemB : DriveItem :=
  { id := "b", name := "Bname", createdDateTime := 0,
    parentReference := some { id := "a", path := some "/drive/root:" },
    root := false, deleted := false }

/-- An item whose parent reference supplies only `itemB`'s id, no path. -/
def itemC : DriveItem :=
  { id := "c", name := "Cname", createdDateTime := 0,
    parentReference := some { id := "b", path := none },
    root := false, deleted := false }

/-- The synthetic A/B/C snapshot of the path-reconstruction property. -/
def abcI : DeltaResultInteractor :=
  mkInteractor { deltaLink := some "dl", nextLink := none, value := [itemA, itemB, itemC] }
    (some 50) 0

/-- A folder item, child of the drive root, present only in the previous
round's snapshot. -/
def itemP : DriveItem :=
  { id := "p", name := "oldparent", createdDateTime := 0,
    parentReference := some { id := "rootid", path := some "/drive/root:" },
    root := false, deleted := false }

/-- A file inside `itemP`, parent reference by id only, as seen in the
previous round. -/
def itemD : DriveItem :=
  { id := "d", name := "dfile", createdDateTime := 0,
    parentReference := some { id := "p", path := none },
    root := false, deleted := false }

/-- The tombstone of `itemD` as it appears in the new round's snapshot. -/
def itemDdel : DriveItem :=
  { id := "d", name := "dfile", createdDateTime := 0,
    parentReference := some { id := "p", path := none },
    root := false, deleted := true }

/-- The previous round's interactor: contains `itemP` and `itemD`; its
`Date` header timestamp is 100. -/
def prevI : DeltaResultInteractor :=
  mkInteractor { deltaLink := some "dl0", nextLink := none, value := [itemP, itemD] }
    (some 100) 0

/-- The new round's interactor: only the tombstone of `itemD`; `itemP`'s
ancestry is gone. -/
def nextI : DeltaResultInteractor :=
  mkInteractor { deltaLink := some "dl1", nextLink := none, value := [itemDdel] }
    (some 200) 0

/-- A non-deleted item created at epoch 5, long before the previous
round's timestamp 100. -/
def itemOld : DriveItem :=
  { id := "o", name := "old", createdDateTime := 5,
    parentReference := some { id := "rootid", path := some "/drive/root:" },
    root := false, deleted := false }

/-- An item whose parent id is absent from every snapshot below. -/
def orphanItem : DriveItem :=
  { id := "q", name := "orphan", createdDateTime := 0,
    parentReference := some { id := "missing", path := none },
    root := false, deleted := false }

/-- The last page of a page chain (delta link `dl2`, no next link). -/
def deltaPage2 : DeltaResponse :=
  { deltaLink := some "dl2", nextLink := none, value := [itemD] }

/-- A delta-feed server with a two-page chain: `start` yields a page with
`itemP`, delta link `dl1` and next link `p2`; `p2` yields `deltaPage2`. -/
def deltaSrv : String → DeltaResponse := fun u =>
  if u = "start" then { deltaLink := some "dl1", nextLink := some "p2", value := [itemP] }
  else if u = "p2" then deltaPage2
  else { deltaLink := none, nextLink := none, value := [] }

/-- First child of a paged children listing. -/
def childX : DriveItem :=
  { id := "x", name := "xfile", createdDateTime := 0,
    parentReference := some { id := "it1", path := none }, root := false, deleted := false }

/-- Second child, only on the second page of the listing. -/
def childY : DriveItem :=
  { id := "y", name := "yfile", createdDateTime := 0,
    parentReference := some { id := "it1", path := none }, root := false, deleted := false }

/-- A children-listing server whose first page carries a next-page link
`pageTwo` holding `childY`. -/
def pagedChildrenSrv : String → ChildrenResponse := fun u =>
  if u = "drives/d1/items/it1/children" then { value := [childX], nextLink := some "pageTwo" }
  else if u = "pageTwo" then { value := [childY], nextLink := none }
  else { value := [], nextLink := none }

/-- A one-item acyclic snapshot: just the drive root. -/
def wresAcy : List (String × DriveItem) := [("a", itemA)]

/-- The last page of a chain, or the starting page when the chain is
empty: the page whose delta and next links `loadDelta` retains. -/
def chainLast (p : DeltaResponse) : List DeltaResponse → DeltaResponse
  | [] => p
  | q :: rest => chainLast q rest

/-- A snapshot that contains `orphanItem`, keyed by its id, but not its
parent. -/
def orphanResults : List (String × DriveItem) := [("q", orphanItem)]

/-- A round environment with no cancellation observed. -/
def quietEnv (r : DeltaResponse) : RoundEnv :=
  { cLoop := false, cSleep := false, cFetch := false, resp := r, date := some 300, now := 0 }

/-- A round environment whose cancellation fires during the delta fetch. -/
def fetchCancelledEnv (r : DeltaResponse) : RoundEnv :=
  { cLoop := false, cSleep := false, cFetch := true, resp := r, date := some 300, now := 0 }

/-! ## Theorems -/

/-- Claim C1 (code bug): in the round whose previous interactor is `prevI`
(snapshot timestamp 100), the non-deleted item `itemOld` with
`createdDateTime = 5` — older than the previous round's timestamp, so
`DeltaResultInteractor.isNew` on the previous round rejects it — is
nevertheless classified `Created` by the watch loop, because the source's
condition `new Date(value.createdDateTime)` is an always-truthy `Date`
object; `DeltaResultInteractor.isNew` is defined but never called. -/
theorem watch_emits_created_for_stale_item :
    (roundChangeFor nextI itemOld).type = FileChangeType.Created ∧
    DeltaResultInteractor.isNew prevI itemOld = false ∧
    itemOld.deleted = false := by decide

/-- Claim C2, counterexample: for the deleted item `itemDdel` of the new
snapshot `nextI`, the watch loop emits a Deleted event whose path is
resolved against the NEW snapshot (where the parent is gone, so the path
falls back to the bare name `dfile`), not against the preceding snapshot
`prevI`, which still resolves the item to `oldparent/dfile`. -/
theorem deleted_event_ignores_previous_snapshot :
    roundChangeFor nextI itemDdel =
      { type := FileChangeType.Deleted, path := some "dfile" } ∧
    DeltaResultInteractor.getPathForItem prevI itemDdel = some "oldparent/dfile" ∧
    (roundChangeFor nextI itemDdel).path ≠
      DeltaResultInteractor.getPathForItem prevI itemDdel := by decide

/-- Claim C2, amended: for every poll round and every item of the new
snapshot whose deleted flag is set, the engine emits a Deleted event whose
path is resolved using the NEW (current round's) snapshot — the same
snapshot used for every other event — falling back to the item's bare name
when its ancestry is gone from that snapshot. -/
theorem deleted_event_path_from_new_snapshot (next : DeltaResultInteractor)
    (item : DriveItem) (hmem : item ∈ interactorItems next)
    (hdel : item.deleted = true) :
    roundChangeFor next item =
      { type := FileChangeType.Deleted, path := next.getPathForItem item } ∧
    Change.mk FileChangeType.Deleted (next.getPathForItem item) ∈ roundChanges next := by
  have h1 : roundChangeFor next item =
      { type := FileChangeType.Deleted, path := next.getPathForItem item } := by
    simp [roundChangeFor, hdel]
  refine ⟨h1, ?_⟩
  rw [roundChanges, List.mem_map]
  exact ⟨item, hmem, h1⟩

/-- Claim C2, witness for the amended theorem at the concrete new
snapshot `nextI` and its deleted item `itemDdel`. -/
theorem deleted_event_path_from_new_snapshot_witness :
    roundChangeFor nextI itemDdel =
      { type := FileChangeType.Deleted, path := nextI.getPathForItem itemDdel } ∧
    Change.mk FileChangeType.Deleted (nextI.getPathForItem itemDdel) ∈ roundChanges nextI :=
  deleted_event_path_from_new_snapshot nextI itemDdel (by decide) (by decide)

/-- Claim C4 (code bug): `OneDriveClient.delete` swallows a remote 404 and
rethrows every other remote error, but
`OneDriveFileSystemProvider.delete` invokes it without `await`, so the
provider's delete resolves successfully even when the remote fails with a
non-404 error (here 500): the error never propagates to the caller of the
adapter's delete. -/
theorem provider_delete_swallows_all_errors :
    clientDelete (Except.error 404) = Except.ok () ∧
    providerDelete (Except.error 404) = Except.ok () ∧
    clientDelete (Except.error 500) = Except.error 500 ∧
    providerDelete (Except.error 500) = Except.ok () :=
  ⟨rfl, rfl, rfl, rfl⟩

/-- Claim C5: in the synthetic snapshot `abcI` where `itemA` is the drive
root, `itemB`'s parent reference carries the materialized root path, and
`itemC`'s parent reference supplies only `itemB`'s id, resolving `itemC`
yields `itemB.name ++ "/" ++ itemC.name`; and in every snapshot, an item
reaching the id-lookup branch whose parent id is not found resolves to the
item's bare name instead of failing. -/
theorem path_reconstruction_correct :
    DeltaResultInteractor.getPathForItem abcI itemC =
      some (itemB.name ++ "/" ++ itemC.name) ∧
    ∀ (results : List (String × DriveItem)) (item : DriveItem) (pr : ParentReference),
      item.root = false → item.parentReference = some pr →
      strTruthy pr.path = false → msGet results pr.id = none →
      getPathForItemF results (results.length + 1) item = some item.name := by
  refine ⟨by decide, ?_⟩
  intro results item pr hroot hpr hfal hget
  have hne : ¬ pr.path = some driveRootPrefixStr := by
    intro h
    rw [h] at hfal
    exact absurd hfal (by decide)
  simp [getPathForItemF, hroot, hpr, hne, hfal, hget]

/-- Claim C5, witness: the fallback branch at the concrete snapshot
`orphanResults`, whose only item has a parent id found nowhere. -/
theorem path_reconstruction_correct_witness :
    getPathForItemF orphanResults (orphanResults.length + 1) orphanItem =
      some orphanItem.name :=
  path_reconstruction_correct.2 orphanResults orphanItem
    { id := "missing", path := none } (by decide) (by decide) (by decide) (by decide)

/-- The delta and next links of `chainLast` only depend on the starting
page's links, not on its accumulated `value`. -/
theorem chainLast_links (p q : DeltaResponse) (hd : p.deltaLink = q.deltaLink)
    (hn : p.nextLink = q.nextLink) (l : List DeltaResponse) :
    (chainLast p l).deltaLink = (chainLast q l).deltaLink ∧
    (chainLast p l).nextLink = (chainLast q l).nextLink := by
  cases l with
  | nil => exact ⟨hd, hn⟩
  | cons a t => simp [chainLast]

/-- The page-following loop of `loadDelta`, run on a server that serves a
page chain ending without a next link, materializes the concatenation of
all pages' values in order and retains the last page's links. -/
theorem loadDeltaLoop_chain (server : String → DeltaResponse)
    (pages : List DeltaResponse) :
    ∀ (fuel : Nat) (p : DeltaResponse),
      chainOk server p.nextLink pages → pages.length ≤ fuel →
      loadDeltaLoop server fuel p =
        some { deltaLink := (chainLast p pages).deltaLink
               nextLink := (chainLast p pages).nextLink
               value := p.value ++ (pages.map DeltaResponse.value).flatten } := by
  induction pages with
  | nil =>
    intro fuel p hch _
    have hf : strTruthy p.nextLink = false := hch
    cases fuel with
    | zero => simp [loadDeltaLoop, hf, chainLast]
    | succ n => simp [loadDeltaLoop, hf, chainLast]
  | cons q rest ih =>
    intro fuel p hch hlen
    obtain ⟨ht, hsrv, hrest⟩ := hch
    cases fuel with
    | zero => simp at hlen
    | succ n =>
      have hstep : loadDeltaLoop server (n + 1) p =
          loadDeltaLoop server n
            { value := p.value ++ (server (p.nextLink.getD "")).value
              deltaLink := (server (p.nextLink.getD "")).deltaLink
              nextLink := (server (p.nextLink.getD "")).nextLink } := by
        simp [loadDeltaLoop, ht]
      rw [hstep, hsrv]
      have hih := ih n
        { value := p.value ++ q.value, deltaLink := q.deltaLink, nextLink := q.nextLink }
        hrest (by simpa using hlen)
      rw [hih]
      have hl := chainLast_links
        { value := p.value ++ q.value, deltaLink := q.deltaLink, nextLink := q.nextLink }
        q rfl rfl rest
      simp [chainLast, hl.1, hl.2, List.append_assoc]

/-- Claim C6, amended (delta feed part): `loadDelta` follows the whole
page chain: the caller receives one materialized response whose `value` is
the server-order concatenation of every page's `value` and whose retained
links are the final page's. -/
theorem delta_feed_materializes_pages (server : String → DeltaResponse)
    (route : String) (fuel : Nat) (pages : List DeltaResponse)
    (hch : chainOk server (server route).nextLink pages)
    (hfuel : pages.length ≤ fuel) :
    loadDelta server fuel route =
      some { deltaLink := (chainLast (server route) pages).deltaLink
             nextLink := (chainLast (server route) pages).nextLink
             value := (server route).value ++ (pages.map DeltaResponse.value).flatten } :=
  loadDeltaLoop_chain server pages fuel (server route) hch hfuel

/-- Claim C6, witness: the two-page chain of `deltaSrv`, fully
materialized with the final page's delta link `dl2`. -/
theorem delta_feed_materializes_pages_witness :
    loadDelta deltaSrv 1 "start" =
      some { deltaLink := some "dl2", nextLink := none, value := [itemP, itemD] } :=
  (delta_feed_materializes_pages deltaSrv "start" 1 [deltaPage2]
    ⟨by decide, by decide, show strTruthy deltaPage2.nextLink = false by decide⟩
    (by decide)).trans (by decide)

/-- Claim C6, counterexample: `getNestedChildren` issues a single fetch
and does not follow the "next page" link of a paged children listing: with
`pagedChildrenSrv`, the caller receives only the first page's items, the
unconsumed next-page link, and not the concatenation of both pages. -/
theorem children_listing_not_paged :
    (getNestedChildren pagedChildrenSrv "d1" "it1").value = [childX] ∧
    strTruthy (getNestedChildren pagedChildrenSrv "d1" "it1").nextLink = true ∧
    (pagedChildrenSrv "pageTwo").value = [childY] ∧
    (getNestedChildren pagedChildrenSrv "d1" "it1").value ≠
      (getNestedChildren pagedChildrenSrv "d1" "it1").value ++
        (pagedChildrenSrv "pageTwo").value := by decide

/-- One step of the watch loop, expressed through `roundCancelled`: a round
with cancellation observed at any checkpoint emits nothing and ends the
loop; an undisturbed round emits its batch and continues with the new
interactor. -/
theorem watchLoop_cons (prev : DeltaResultInteractor) (e : RoundEnv)
    (rest : List RoundEnv) :
    watchLoop prev (e :: rest) =
      if roundCancelled e then []
      else
        roundChanges (mkInteractor e.resp e.date e.now) ::
          watchLoop (mkInteractor e.resp e.date e.now) rest := by
  cases hl : e.cLoop <;> cases hs : e.cSleep <;> cases hf : e.cFetch <;>
    simp [watchLoop, roundCancelled, hl, hs, hf]

/-- Claim C8: the batches the watch loop emits are exactly the per-round
batches of the poll rounds' own (second and later) delta responses, up to
the first cancelled round; the baseline interactor `prev` — built from the
initial delta response — does not occur on the right-hand side, so the
items of the first full delta response are never emitted. -/
theorem emissions_independent_of_baseline (prev : DeltaResultInteractor)
    (envs : List RoundEnv) :
    watchLoop prev envs =
      (envs.takeWhile (fun e => !(roundCancelled e))).map
        (fun e => roundChanges (mkInteractor e.resp e.date e.now)) := by
  induction envs generalizing prev with
  | nil => simp [watchLoop]
  | cons e rest ih =>
    rw [watchLoop_cons]
    cases h : roundCancelled e with
    | true => simp [List.takeWhile_cons, h]
    | false => simp [List.takeWhile_cons, h, ih]

/-- Claim C7: if cancellation is observed at any checkpoint of round `i`,
the watch loop emits no batch at round `i` or later: at most the `i`
earlier rounds' batches appear.  In particular a cancellation firing while
the round's delta fetch is in flight (`cFetch`) discards that round's
response without emitting it. -/
theorem no_emission_after_cancellation (prev : DeltaResultInteractor)
    (envs : List RoundEnv) (i : Nat) (hi : i < envs.length)
    (hc : roundCancelled (envs.get ⟨i, hi⟩) = true) :
    (watchLoop prev envs).length ≤ i := by
  induction envs generalizing prev i with
  | nil => simp at hi
  | cons e rest ih =>
    rw [watchLoop_cons]
    cases h : roundCancelled e with
    | true => simp
    | false =>
      cases i with
      | zero => exact absurd hc (by simp [List.get, h])
      | succ j =>
        have hj : j < rest.length := Nat.lt_of_succ_lt_succ hi
        have := ih (mkInteractor e.resp e.date e.now) j hj hc
        simp [h]
        omega

/-- Claim C7, witness: a single round whose cancellation fires during the
delta fetch emits nothing. -/
theorem no_emission_after_cancellation_witness :
    (watchLoop prevI [fetchCancelledEnv deltaPage2]).length ≤ 0 :=
  no_emission_after_cancellation prevI [fetchCancelledEnv deltaPage2] 0
    (by decide) (by decide)

/-- Claim C10: the `dispose` of a watch handle is idempotent as a state
transition: a second `dispose` of the same handle is a no-op (the handle's
`disposed` flag short-circuits the guard), so a double-dispose decrements
the shared reference count only once and can never cancel a polling loop
other observers still hold. -/
theorem handle_dispose_idempotent (s : FsWatchState) (i : Nat) :
    applyDispose (applyDispose s i) i = applyDispose s i := by
  cases hg : s.handles[i]? with
  | none => simp [applyDispose, hg]
  | some b =>
    cases b with
    | true => simp [applyDispose, hg]
    | false =>
      have hlt : i < s.handles.length := by
        by_contra hge
        rw [List.getElem?_eq_none (Nat.le_of_not_lt hge)] at hg
        exact Option.noConfusion hg
      have hset : (s.handles.set i true)[i]? = some true :=
        List.getElem?_set_eq_of_lt true hlt
      cases hw : s.watcher with
      | none => simp [applyDispose, hg, hw, hset]
      | some cg =>
        obtain ⟨c, g⟩ := cg
        by_cases hz : c - 1 = 0
        · simp [applyDispose, hg, hw, hz, hset]
        · simp [applyDispose, hg, hw, hz, hset]

/-- A duplicate-free list whose elements are all equal has at most one
element. -/
theorem nodup_all_eq_length_le_one {l : List Nat} {g : Nat} (hnd : l.Nodup)
    (hall : ∀ a ∈ l, a = g) : l.length ≤ 1 := by
  cases l with
  | nil => simp
  | cons a t =>
    cases t with
    | nil => simp
    | cons b u =>
      have ha : a = g := hall a (by simp)
      have hb : b = g := hall b (by simp)
      subst ha
      subst hb
      simp at hnd

/-- The invariant of the provider's watcher state: started generations are
pairwise distinct and below the fresh-generation counter, cancellations
are pairwise distinct and only of started generations, an installed
watcher has a positive count and holds the unique started-but-uncancelled
generation, and with no watcher installed every started generation is
cancelled. -/
structure WatchInv (s : FsWatchState) : Prop where
  startedNodup : s.started.Nodup
  cancelledNodup : s.cancelled.Nodup
  cancelledSub : ∀ g ∈ s.cancelled, g ∈ s.started
  genBound : ∀ g ∈ s.started, g < s.nextGen
  watcherSome : ∀ c g, s.watcher = some (c, g) →
    1 ≤ c ∧ g ∈ s.started ∧ g ∉ s.cancelled ∧
      ∀ g2 ∈ s.started, g2 ∉ s.cancelled → g2 = g
  watcherNone : s.watcher = none → ∀ g ∈ s.started, g ∈ s.cancelled

/-- The fresh provider state satisfies the invariant. -/
theorem inv_init : WatchInv initWatchState := by
  refine ⟨?_, ?_, ?_, ?_, ?_, ?_⟩ <;> simp [initWatchState]

/-- A subscription preserves the watcher invariant. -/
theorem inv_subscribe {s : FsWatchState} (h : WatchInv s) :
    WatchInv (applySubscribe s) := by
  cases hw : s.watcher with
  | some cg =>
    obtain ⟨c, g⟩ := cg
    obtain ⟨hc1, hgS, hgC, huniq⟩ := h.watcherSome c g hw
    have hstate : applySubscribe s =
        { s with watcher := some (c + 1, g), handles := s.handles ++ [false] } := by
      simp [applySubscribe, hw]
    rw [hstate]
    refine ⟨h.startedNodup, h.cancelledNodup, h.cancelledSub, h.genBound, ?_, ?_⟩
    · intro c2 g2 heq
      have heq2 : (some (c + 1, g) : Option (Int × Nat)) = some (c2, g2) := heq
      injection heq2 with hp
      injection hp with h1 h2
      subst h1
      subst h2
      exact ⟨by omega, hgS, hgC, huniq⟩
    · intro hnone
      exact Option.noConfusion hnone
  | none =>
    have hstate : applySubscribe s =
        { s with
            watcher := some (1, s.nextGen)
            nextGen := s.nextGen + 1
            handles := s.handles ++ [false]
            started := s.started ++ [s.nextGen] } := by
      simp [applySubscribe, hw]
    rw [hstate]
    have hfresh : s.nextGen ∉ s.started := fun hmem =>
      absurd (h.genBound _ hmem) (by omega)
    have hfreshC : s.nextGen ∉ s.cancelled := fun hmem =>
      hfresh (h.cancelledSub _ hmem)
    refine ⟨?_, h.cancelledNodup, ?_, ?_, ?_, ?_⟩
    · rw [List.nodup_append]
      refine ⟨h.startedNodup, List.nodup_singleton _, ?_⟩
      intro a ha hb
      have : a = s.nextGen := by simpa using hb
      subst this
      exact hfresh ha
    · intro g2 hg2
      exact List.mem_append_left _ (h.cancelledSub g2 hg2)
    · intro g2 hg2
      show g2 < s.nextGen + 1
      rcases List.mem_append.mp hg2 with h1 | h1
      · have := h.genBound g2 h1
        omega
      · have : g2 = s.nextGen := by simpa using h1
        omega
    · intro c2 g2 heq
      have heq2 : (some (1, s.nextGen) : Option (Int × Nat)) = some (c2, g2) := heq
      injection heq2 with hp
      injection hp with h1 h2
      subst h1
      subst h2
      refine ⟨by omega, List.mem_append_right _ (by simp), hfreshC, ?_⟩
      intro g2 hg2 hg2c
      rcases List.mem_append.mp hg2 with h1 | h1
      · exact absurd (h.watcherNone hw g2 h1) hg2c
      · simpa using h1
    · intro hnone
      exact Option.noConfusion hnone

/-- A handle disposal preserves the watcher invariant. -/
theorem inv_dispose {s : FsWatchState} (h : WatchInv s) (i : Nat) :
    WatchInv (applyDispose s i) := by
  cases hg : s.handles[i]? with
  | none =>
    have hstate : applyDispose s i = s := by simp [applyDispose, hg]
    rw [hstate]
    exact h
  | some b =>
    cases b with
    | true =>
      have hstate : applyDispose s i = s := by simp [applyDispose, hg]
      rw [hstate]
      exact h
    | false =>
      cases hw : s.watcher with
      | none =>
        have hstate : applyDispose s i =
            { s with handles := s.handles.set i true } := by
          simp [applyDispose, hg, hw]
        rw [hstate]
        refine ⟨h.startedNodup, h.cancelledNodup, h.cancelledSub, h.genBound, ?_, ?_⟩
        · intro c2 g2 heq
          exact Option.noConfusion (hw.symm.trans heq)
        · intro _
          exact h.watcherNone hw
      | some cg =>
        obtain ⟨c, g⟩ := cg
        obtain ⟨hc1, hgS, hgC, huniq⟩ := h.watcherSome c g hw
        by_cases hz : c - 1 = 0
        · have hstate : applyDispose s i =
              { s with
                  handles := s.handles.set i true
                  watcher := none
                  cancelled := s.cancelled ++ [g] } := by
            simp [applyDispose, hg, hw, hz]
          rw [hstate]
          refine ⟨h.startedNodup, ?_, ?_, h.genBound, ?_, ?_⟩
          · rw [List.nodup_append]
            refine ⟨h.cancelledNodup, List.nodup_singleton _, ?_⟩
            intro a ha hb
            have : a = g := by simpa using hb
            subst this
            exact hgC ha
          · intro g2 hg2
            rcases List.mem_append.mp hg2 with h1 | h1
            · exact h.cancelledSub g2 h1
            · have : g2 = g := by simpa using h1
              subst this
              exact hgS
          · intro c2 g2 heq
            exact Option.noConfusion heq
          · intro _ g2 hg2
            by_cases hgc : g2 ∈ s.cancelled
            · exact List.mem_append_left _ hgc
            · have : g2 = g := huniq g2 hg2 hgc
              subst this
              exact List.mem_append_right _ (by simp)
        · have hstate : applyDispose s i =
              { s with
                  handles := s.handles.set i true
                  watcher := some (c - 1, g) } := by
            simp [applyDispose, hg, hw, hz]
          rw [hstate]
          refine ⟨h.startedNodup, h.cancelledNodup, h.cancelledSub, h.genBound, ?_, ?_⟩
          · intro c2 g2 heq
            have heq2 : (some (c - 1, g) : Option (Int × Nat)) = some (c2, g2) := heq
            injection heq2 with hp
            injection hp with h1 h2
            subst h1
            subst h2
            exact ⟨by omega, hgS, hgC, huniq⟩
          · intro hnone
            exact Option.noConfusion hnone

/-- Every reachable provider state satisfies the watcher invariant. -/
theorem inv_runOps (ops : List WatchOp) : WatchInv (runOps ops) := by
  have main : ∀ (l : List WatchOp) (s : FsWatchState),
      WatchInv s → WatchInv (l.foldl applyOp s) := by
    intro l
    induction l with
    | nil => intro s hs; exact hs
    | cons op rest ih =>
      intro s hs
      cases op with
      | subscribe => exact ih _ (inv_subscribe hs)
      | dispose i => exact ih _ (inv_dispose hs i)
  exact main ops initWatchState inv_init

/-- Claim C3: after every finite interleaving of watch subscriptions and
handle disposals, each polling-loop generation was started at most once
(the started list is duplicate-free), each generation's cancellation token
was cancelled at most once and only if its loop was started, at most one
polling loop is active (started but not cancelled), and while a watcher is
installed its generation's loop is active — so a loop is cancelled exactly
at the disposal that returns the reference count to zero, which is the
only transition recording a cancellation. -/
theorem watch_refcount_single_loop (ops : List WatchOp) :
    (runOps ops).started.Nodup ∧
    (runOps ops).cancelled.Nodup ∧
    (∀ g ∈ (runOps ops).cancelled, g ∈ (runOps ops).started) ∧
    (activeGens (runOps ops)).length ≤ 1 ∧
    ∀ c g, (runOps ops).watcher = some (c, g) →
      g ∈ (runOps ops).started ∧ g ∉ (runOps ops).cancelled := by
  have h := inv_runOps ops
  refine ⟨h.startedNodup, h.cancelledNodup, h.cancelledSub, ?_, ?_⟩
  · cases hw : (runOps ops).watcher with
    | some cg =>
      obtain ⟨c, g⟩ := cg
      obtain ⟨_, _, _, huniq⟩ := h.watcherSome c g hw
      apply nodup_all_eq_length_le_one (g := g) (h.startedNodup.filter _)
      intro a ha
      simp only [activeGens, List.mem_filter] at ha
      obtain ⟨haS, haP⟩ := ha
      exact huniq a haS (by simpa using haP)
    | none =>
      have hnil : activeGens (runOps ops) = [] := by
        rw [activeGens, List.filter_eq_nil_iff]
        intro a ha
        simpa using h.watcherNone hw a ha
      rw [hnil]
      simp
  · intro c g heq
    obtain ⟨_, h2, h3, _⟩ := h.watcherSome c g heq
    exact ⟨h2, h3⟩

/-- A successful `msGet` lookup returns one of the snapshot's values. -/
theorem msGet_mem_values {results : List (String × DriveItem)} {k : String}
    {p : DriveItem} (h : msGet results k = some p) :
    p ∈ results.map (fun q => q.2) := by
  rw [msGet] at h
  obtain ⟨q, hq1, hq2⟩ := Option.map_eq_some'.mp h
  subst hq2
  exact List.mem_map_of_mem _ (List.mem_of_find?_eq_some hq1)

/-- Accessibility under the transitive closure gives accessibility under
the relation itself. -/
theorem acc_of_transGen {α : Type} {r : α → α → Prop} {x : α}
    (h : Acc (Relation.TransGen r) x) : Acc r x := by
  induction h with
  | intro y _ ih =>
    exact Acc.intro y (fun z hz => ih z (Relation.TransGen.single hz))

/-- Claim C9: in every snapshot whose parent-id references are acyclic (no
item is its own strict ancestor under the recursion step `stepRel`), the
recursion of `getPathForItem` terminates for every item of the snapshot:
some finite fuel makes `getPathForItemF` return a result. -/
theorem getPathForItem_terminates_on_dag (results : List (String × DriveItem))
    (hacy : ∀ x : DriveItem, ¬ Relation.TransGen (stepRel results) x x)
    (item : DriveItem) (hmem : item ∈ results.map (fun q => q.2)) :
    ∃ n, (getPathForItemF results n item).isSome = true := by
  have hsub : ∀ p c : DriveItem, stepRel results p c →
      p ∈ results.map (fun q => q.2) := by
    intro p c hpc
    obtain ⟨_, pr, _, _, hget⟩ := hpc
    exact msGet_mem_values hget
  have hirr : ∀ a : {x : DriveItem // x ∈ results.map (fun q => q.2)},
      ¬ Relation.TransGen (fun a b : {x : DriveItem // x ∈ results.map (fun q => q.2)} =>
        stepRel results a.1 b.1) a a := by
    intro a hTG
    exact hacy a.1
      (Relation.TransGen.lift
        (fun v : {x : DriveItem // x ∈ results.map (fun q => q.2)} => v.1)
        (fun x y hxy => hxy) hTG)
  have hwf : WellFounded (Relation.TransGen
      (fun a b : {x : DriveItem // x ∈ results.map (fun q => q.2)} =>
        stepRel results a.1 b.1)) := by
    haveI : IsTrans {x : DriveItem // x ∈ results.map (fun q => q.2)}
        (Relation.TransGen (fun a b : {x : DriveItem // x ∈ results.map (fun q => q.2)} =>
          stepRel results a.1 b.1)) := ⟨fun _ _ _ => Relation.TransGen.trans⟩
    haveI : IsIrrefl {x : DriveItem // x ∈ results.map (fun q => q.2)}
        (Relation.TransGen (fun a b : {x : DriveItem // x ∈ results.map (fun q => q.2)} =>
          stepRel results a.1 b.1)) := ⟨hirr⟩
    exact Finite.wellFounded_of_trans_of_irrefl _
  have hlift : ∀ a : {x : DriveItem // x ∈ results.map (fun q => q.2)},
      Acc (fun a b : {x : DriveItem // x ∈ results.map (fun q => q.2)} =>
        stepRel results a.1 b.1) a →
      Acc (stepRel results) a.1 := by
    intro a ha
    induction ha with
    | intro b _ ih =>
      refine Acc.intro b.1 (fun y hy => ?_)
      exact ih ⟨y, hsub y b.1 hy⟩ hy
  have hfuel : ∀ x : DriveItem, Acc (stepRel results) x →
      ∃ n, (getPathForItemF results n x).isSome = true := by
    intro x hx
    induction hx with
    | intro y _ ih =>
      by_cases hroot : y.root = true
      · exact ⟨1, by simp [getPathForItemF, hroot]⟩
      · cases hpr : y.parentReference with
        | none => exact ⟨1, by simp [getPathForItemF, hroot, hpr]⟩
        | some pr =>
          by_cases hdr : pr.path = some driveRootPrefixStr
          · exact ⟨1, by simp [getPathForItemF, hroot, hpr, hdr]⟩
          · by_cases htr : strTruthy pr.path = true
            · exact ⟨1, by simp [getPathForItemF, hroot, hpr, hdr, htr]⟩
            · cases hget : msGet results pr.id with
              | none =>
                exact ⟨1, by simp [getPathForItemF, hroot, hpr, hdr, htr, hget]⟩
              | some parentItem =>
                have hstep : stepRel results parentItem y :=
                  ⟨by simpa using hroot, pr, hpr, by simpa using htr, hget⟩
                obtain ⟨n, hn⟩ := ih parentItem hstep
                refine ⟨n + 1, ?_⟩
                simpa [getPathForItemF, hroot, hpr, hdr, htr, hget] using hn
  exact hfuel item (hlift ⟨item, hmem⟩ (acc_of_transGen (hwf.apply ⟨item, hmem⟩)))

/-- Every key looked up in the singleton snapshot `wresAcy` yields its
only item, the drive root. -/
theorem wres_msGet {k : String} {p : DriveItem} (h : msGet wresAcy k = some p) :
    p = itemA := by
  rw [msGet, wresAcy] at h
  rw [List.find?] at h
  cases hbeq : (("a", itemA).1 == k) with
  | false => rw [hbeq] at h; simp at h
  | true => rw [hbeq] at h; simp at h; exact h.symm

/-- A transitive-closure step chain starts with a single step. -/
theorem transGen_first_edge {α : Type} {r : α → α → Prop} {a b : α}
    (h : Relation.TransGen r a b) : ∃ y, r a y := by
  induction h using Relation.TransGen.head_induction_on with
  | base h => exact ⟨_, h⟩
  | ih h1 _ _ => exact ⟨_, h1⟩

/-- The singleton root-only snapshot `wresAcy` has no recursion cycle. -/
theorem wres_acyclic : ∀ x : DriveItem, ¬ Relation.TransGen (stepRel wresAcy) x x := by
  have hstep : ∀ p c : DriveItem, stepRel wresAcy p c → p = itemA ∧ c.root = false := by
    intro p c h
    obtain ⟨hroot, pr, hpr, hfal, hget⟩ := h
    exact ⟨wres_msGet hget, hroot⟩
  intro x hTG
  have hlast : ∃ c, stepRel wresAcy c x := by
    cases hTG with
    | single h => exact ⟨_, h⟩
    | tail _ h => exact ⟨_, h⟩
  obtain ⟨y, hy⟩ := transGen_first_edge hTG
  have hx : x = itemA := (hstep x y hy).1
  obtain ⟨c, hc⟩ := hlast
  have : x.root = false := (hstep c x hc).2
  rw [hx] at this
  exact absurd this (by decide)

/-- Claim C9, witness: the singleton root-only snapshot is acyclic and the
termination theorem applies to its item. -/
theorem getPathForItem_terminates_on_dag_witness :
    ∃ n, (getPathForItemF wresAcy n itemA).isSome = true :=
  getPathForItem_terminates_on_dag wresAcy wres_acyclic itemA (by decide)

end OneDrive
